import Mathlib

/-!
Verification of the smartsensrty-backend evidence and SOS pipeline.

This file shallowly embeds the request handlers of the repository
(`src/routes/evidenceRoutes.js`, `src/routes/advancedSOSRoutes.js`, the
volunteer routes, and the `/api/sos/start` handler of `index.js`) as pure
Lean functions over an explicit store, and proves or refutes the frozen
claims about them.

Modelling conventions:
  * Machine integers are `Nat`/`Int`; 32-bit wraparound in SHA-256 is an
    explicit `% 2^32`.
  * MongoDB collections are Lean lists of documents; `findOne`/`find` are
    `List.find?`/`List.filter` over them; `save` of a fetched document
    rewrites that document in place.  Document `_id`s are drawn from a
    `nextId` counter in the store.
  * JSON objects (the `progress.json` file of the chunk-upload flow, the
    on-disk chunk files of one upload directory) are association lists;
    updating an existing key keeps its position, a new key is appended,
    exactly as JavaScript object insertion order behaves.
  * Express responses are inductive result types carrying the data the
    handler puts in the JSON body; HTTP status codes map to constructors.
  * `crypto.randomBytes` values (secure-URL tokens, the fallback
    encryption IV) are threaded in as parameters.
  * Base64 encoding of stored file bytes is a bijective storage encoding
    and is elided: the `data` field holds the raw bytes.
-/

namespace SmartSentry

/-! ### SHA-256 (`crypto.createHash('sha256')`), over byte lists -/

/-- 32-bit truncation. -/
def mask32 (x : Nat) : Nat := x % 4294967296

/-- Right rotation of a 32-bit word. -/
def rotr32 (x n : Nat) : Nat := mask32 ((x >>> n) ||| (x <<< (32 - n)))

/-- SHA-256 `Ch(x,y,z)`; `~x` on 32 bits is `x ^^^ 0xffffffff`. -/
def shaCh (x y z : Nat) : Nat := (x &&& y) ^^^ ((x ^^^ 4294967295) &&& z)

/-- SHA-256 `Maj(x,y,z)`. -/
def shaMaj (x y z : Nat) : Nat := (x &&& y) ^^^ (x &&& z) ^^^ (y &&& z)

/-- SHA-256 `Σ₀`. -/
def bSig0 (x : Nat) : Nat := rotr32 x 2 ^^^ rotr32 x 13 ^^^ rotr32 x 22

/-- SHA-256 `Σ₁`. -/
def bSig1 (x : Nat) : Nat := rotr32 x 6 ^^^ rotr32 x 11 ^^^ rotr32 x 25

/-- SHA-256 `σ₀`. -/
def sSig0 (x : Nat) : Nat := rotr32 x 7 ^^^ rotr32 x 18 ^^^ (x >>> 3)

/-- SHA-256 `σ₁`. -/
def sSig1 (x : Nat) : Nat := rotr32 x 17 ^^^ rotr32 x 19 ^^^ (x >>> 10)

/-- The 64 SHA-256 round constants of FIPS 180-4, in decimal. -/
def shaK : List Nat :=
  [1116352408, 1899447441, 3049323471, 3921009573, 961987163, 1508970993,
   2453635748, 2870763221, 3624381080, 310598401, 607225278, 1426881987,
   1925078388, 2162078206, 2614888103, 3248222580, 3835390401, 4022224774,
   264347078, 604807628, 770255983, 1249150122, 1555081692, 1996064986,
   2554220882, 2821834349, 2952996808, 3210313671, 3336571891, 3584528711,
   113926993, 338241895, 666307205, 773529912, 1294757372, 1396182291,
   1695183700, 1986661051, 2177026350, 2456956037, 2730485921, 2820302411,
   3259730800, 3345764771, 3516065817, 3600352804, 4094571909, 275423344,
   430227734, 506948616, 659060556, 883997877, 958139571, 1322822218,
   1537002063, 1747873779, 1955562222, 2024104815, 2227730452, 2361852424,
   2428436474, 2756734187, 3204031479, 3329325298]

/-- The eight SHA-256 initial hash words of FIPS 180-4, in decimal. -/
def shaH0 : List Nat :=
  [1779033703, 3144134277, 1013904242, 2773480762,
   1359893119, 2600822924, 528734635, 1541459225]

/-- Big-endian 8-byte encoding of a length in bits. -/
def be64 (n : Nat) : List Nat :=
  [(n >>> 56) &&& 255, (n >>> 48) &&& 255, (n >>> 40) &&& 255, (n >>> 32) &&& 255,
   (n >>> 24) &&& 255, (n >>> 16) &&& 255, (n >>> 8) &&& 255, n &&& 255]

/-- Big-endian 4-byte encoding of a 32-bit word. -/
def be32 (n : Nat) : List Nat :=
  [(n >>> 24) &&& 255, (n >>> 16) &&& 255, (n >>> 8) &&& 255, n &&& 255]

/-- FIPS 180-4 padding: `0x80`, zeros, then the 64-bit big-endian bit length. -/
def padMessage (msg : List Nat) : List Nat :=
  msg ++ 0x80 :: (List.replicate ((55 + 64 - msg.length % 64) % 64) 0 ++ be64 (msg.length * 8))

/-- Big-endian 32-bit words from bytes (the padded message has length a multiple of 4). -/
def toWords : List Nat → List Nat
  | a :: b :: c :: d :: rest =>
      (((a &&& 255) <<< 24) ||| ((b &&& 255) <<< 16) ||| ((c &&& 255) <<< 8) ||| (d &&& 255))
        :: toWords rest
  | _ => []

/-- Group a word list into 16-word blocks. -/
def toBlocks16 : List Nat → List (List Nat)
  | w0 :: w1 :: w2 :: w3 :: w4 :: w5 :: w6 :: w7 ::
    w8 :: w9 :: w10 :: w11 :: w12 :: w13 :: w14 :: w15 :: rest =>
      [w0, w1, w2, w3, w4, w5, w6, w7, w8, w9, w10, w11, w12, w13, w14, w15] :: toBlocks16 rest
  | _ => []

/-- One message-schedule extension step: append word `t` from words `t-2`, `t-7`, `t-15`, `t-16`. -/
def scheduleStep (w : List Nat) : List Nat :=
  let t := w.length
  w ++ [mask32 (sSig1 (w.getD (t - 2) 0) + w.getD (t - 7) 0 +
                sSig0 (w.getD (t - 15) 0) + w.getD (t - 16) 0)]

/-- Extend a 16-word block to the 64-word message schedule. -/
def fullSchedule (w16 : List Nat) : List Nat :=
  (List.range 48).foldl (fun w _ => scheduleStep w) w16

/-- One compression round on the eight-word working state. -/
def compressRound (kw : Nat × Nat) (s : List Nat) : List Nat :=
  match s with
  | [a, b, c, d, e, f, g, h] =>
      let t1 := mask32 (h + bSig1 e + shaCh e f g + kw.1 + kw.2)
      let t2 := mask32 (bSig0 a + shaMaj a b c)
      [mask32 (t1 + t2), a, b, c, mask32 (d + t1), e, f, g]
  | s => s

/-- Compress one 16-word block into the hash state. -/
def compressBlock (st : List Nat) (block16 : List Nat) : List Nat :=
  let fin := (shaK.zip (fullSchedule block16)).foldl (fun s kw => compressRound kw s) st
  List.zipWith (fun x y => mask32 (x + y)) st fin

/-- SHA-256 digest, as 32 bytes. -/
def sha256 (msg : List Nat) : List Nat :=
  ((toBlocks16 (toWords (padMessage msg))).foldl compressBlock shaH0).foldr
    (fun wd acc => be32 wd ++ acc) []

/-- A hex digit character, lowercase as `digest('hex')` emits. -/
def hexDigit (n : Nat) : Char := if n < 10 then Char.ofNat (48 + n) else Char.ofNat (87 + n)

/-- Two hex characters of one byte. -/
def byteHex (b : Nat) : List Char := [hexDigit (b / 16 % 16), hexDigit (b % 16)]

/-- SHA-256 hex digest of a byte list, as `crypto...digest('hex')` returns it. -/
def sha256Hex (msg : List Nat) : String := ⟨(sha256 msg).foldr (fun b acc => byteHex b ++ acc) []⟩

/-- Bytes of an ASCII string (`hash.update(string)` on the hex digests). -/
def strBytes (s : String) : List Nat := s.toList.map Char.toNat

/-- SHA-256 hex digest of an ASCII string. -/
def sha256HexOfString (s : String) : String := sha256Hex (strBytes s)

/-! ### Association lists, as JavaScript objects / keyed file directories -/

/-- Lookup by key, first match. -/
def lookupA {α β : Type} [DecidableEq α] : List (α × β) → α → Option β
  | [], _ => none
  | (k, v) :: rest, a => if k = a then some v else lookupA rest a

/-- Write a key: replace the first matching entry in place, or append a new one
(JavaScript object assignment keeps insertion order). -/
def setA {α β : Type} [DecidableEq α] : List (α × β) → α → β → List (α × β)
  | [], a, b => [(a, b)]
  | (k, v) :: rest, a, b => if k = a then (a, b) :: rest else (k, v) :: setA rest a b

/-- Modify the value at a key in place; no-op when absent. -/
def updA {α β : Type} [DecidableEq α] : List (α × β) → α → (β → β) → List (α × β)
  | [], _, _ => []
  | (k, v) :: rest, a, f => if k = a then (k, f v) :: rest else (k, v) :: updA rest a f

/-- Remove the first entry with the key. -/
def delA {α β : Type} [DecidableEq α] : List (α × β) → α → List (α × β)
  | [], _ => []
  | (k, v) :: rest, a => if k = a then rest else (k, v) :: delA rest a

/-! ### Data model: documents and the store -/

/-- One `progress.json` entry of an upload session, per file type.
`totalChunks` is `parseInt(totalChunks)` from the first chunk request of the
stream; `none` models the `NaN`/`null` it becomes when the field was absent. -/
structure StreamProgress where
  uploadedChunks : Nat
  totalChunks : Option Nat
deriving DecidableEq, Repr

/-- One upload directory `uploads/evidence/<uploadId>`: the parsed
`progress.json` and the chunk files keyed by `(fileType, chunkIndex)`. -/
structure UploadSession where
  progress : List (String × StreamProgress)
  chunkFiles : List ((String × Nat) × List Nat)
deriving DecidableEq

/-- A `sharedWith` entry of `SOSEvidence` (`{type, sharedAt}`). -/
structure ShareRecord where
  shareType : String
  sharedAt : Int
deriving DecidableEq, Repr

/-- An `evidenceFiles` entry of `SOSEvidence`; `data` holds the raw bytes. -/
structure EvFile where
  ftype : String
  filename : String
  data : List Nat
  secureUrl : String
  mimeType : String
  size : Nat
deriving DecidableEq, Repr

/-- A document of the `SOSEvidence` collection.  Both write paths target this
collection (`finalize-upload` via the `Evidence` import and `POST /upload`),
so fields either path leaves unset are `Option`/empty. -/
structure EvidenceDoc where
  id : Nat
  userId : String
  recordingId : Option String
  sosId : Option String
  evType : Option String
  duration : Option Nat
  encryptionIv : Option String
  frontVideoUrl : Option String
  backVideoUrl : Option String
  audioUrl : Option String
  uploadStatus : Option String
  evidenceFiles : List EvFile
  sharedWith : List ShareRecord
  hash : Option String
deriving DecidableEq

/-- A document of the `SOS` events collection (the fields the modelled
handlers read or write). -/
structure SOSEventDoc where
  id : Nat
  userId : String
  recordingId : Option String
  sosType : String
  status : String
  evidence : Option Nat
deriving DecidableEq

/-- A `User` document, restricted to the volunteer-dispatch fields.
`hasVolunteerLocation` models presence of the GeoJSON `volunteerLocation`
point (`$near` only matches documents that have one). -/
structure UserDoc where
  id : String
  name : String
  mobile : String
  isVolunteer : Bool
  volunteerLastActive : Option Int
  hasVolunteerLocation : Bool
deriving DecidableEq, Repr

/-- The persistent state the modelled handlers touch: live upload directories,
the `SOSEvidence` and `SOS` collections, the `User` collection, and the id
counter standing in for ObjectId generation. -/
structure Store where
  sessions : List (String × UploadSession)
  evidence : List EvidenceDoc
  sosEvents : List SOSEventDoc
  users : List UserDoc
  nextId : Nat
deriving DecidableEq

/-- The store with nothing in it. -/
def emptyStore : Store := ⟨[], [], [], [], 0⟩

/-! ### POST /api/sos-evidence/upload-chunk (`evidenceRoutes.js` 30-94) -/

/-- The request body and multer file of `upload-chunk`; `none` models an
absent field (empty strings are falsy in the JS presence check, so they are
"absent" too and the model uses `""` for them). -/
structure ChunkRequest where
  uploadId : String
  recordingId : String
  fileType : String
  chunkIndex : Option Nat
  totalChunks : Option Nat
  chunk : Option (List Nat)
deriving DecidableEq

/-- Responses of the `upload-chunk` handler. -/
inductive ChunkResult
  | missingFields
  | noChunkFile
  | ok (uploadId recordingId fileType : String) (chunkIndex : Nat) (totalChunks : Option Nat)
      (progress : List (String × StreamProgress))
deriving DecidableEq

/-- The body of the `upload-chunk` handler after validation, acting on one
upload directory: move the chunk to `<fileType>_chunk_<chunkIndex>`
(overwriting any earlier file of that name), create the stream's progress
entry on first sight with the request's `totalChunks`, and set
`uploadedChunks = parseInt(chunkIndex) + 1`. -/
def putChunkCore (sess : UploadSession) (ft : String) (idx : Nat) (tc : Option Nat)
    (bytes : List Nat) : UploadSession :=
  let chunkFiles := setA sess.chunkFiles (ft, idx) bytes
  let prog1 :=
    match lookupA sess.progress ft with
    | some _ => sess.progress
    | none => sess.progress ++ [(ft, ⟨0, tc⟩)]
  ⟨updA prog1 ft (fun p => { p with uploadedChunks := idx + 1 }), chunkFiles⟩

/-- The `upload-chunk` handler: validate field presence, create the upload
directory if missing, and apply `putChunkCore` to it. -/
def uploadChunk (st : Store) (req : ChunkRequest) : ChunkResult × Store :=
  match req.chunkIndex with
  | none => (.missingFields, st)
  | some idx =>
    if req.uploadId = "" ∨ req.recordingId = "" ∨ req.fileType = "" then (.missingFields, st)
    else
      match req.chunk with
      | none => (.noChunkFile, st)
      | some bytes =>
        let sess := (lookupA st.sessions req.uploadId).getD ⟨[], []⟩
        let sess2 := putChunkCore sess req.fileType idx req.totalChunks bytes
        (.ok req.uploadId req.recordingId req.fileType idx req.totalChunks sess2.progress,
         { st with sessions := setA st.sessions req.uploadId sess2 })

/-! ### POST /api/sos-evidence/finalize-upload (`evidenceRoutes.js` 100-219) -/

/-- The metadata object of `finalize-upload` (the fields the handler reads). -/
structure UploadMetadata where
  timestamp : Int
  duration : Nat
  encryptionIv : Option String
  status : Option String
deriving DecidableEq

/-- The request body of `finalize-upload`. -/
structure FinalizeRequest where
  uploadId : String
  recordingId : String
  metadata : Option UploadMetadata
deriving DecidableEq

/-- Responses of the `finalize-upload` handler.  `ok` carries the evidence id,
the per-stream cloud URLs, and the assembled per-stream bytes written to the
`<fileType>_final.enc` files. -/
inductive FinalizeResult
  | missingFields
  | sessionNotFound
  | incomplete (fileType : String) (received : Nat) (total : Option Nat)
  | ok (evidenceId : Nat) (recordingId : String) (urls : List (String × String))
      (assembled : List (String × List Nat))
deriving DecidableEq

/-- The completeness test of `finalize-upload`:
`fileProgress.uploadedChunks !== fileProgress.totalChunks`. -/
def streamComplete (p : StreamProgress) : Bool := some p.uploadedChunks == p.totalChunks

/-- Read chunks `0 .. n-1` of a stream and concatenate them; a missing chunk
file makes `readFileSync` throw, which the handler catches per stream. -/
def assembleChunks (files : List ((String × Nat) × List Nat)) (ft : String) : Nat → Option (List Nat)
  | 0 => some []
  | n + 1 =>
    match assembleChunks files ft n, lookupA files (ft, n) with
    | some acc, some bytes => some (acc ++ bytes)
    | _, _ => none

/-- The placeholder cloud URL the handler records per stream. -/
def cloudUrl (recordingId ft : String) : String :=
  "https://smartsensry-backend.herokuapp.com/api/sos-evidence/" ++ recordingId ++ "/" ++ ft

/-- The assembled per-stream files of a complete session: for each declared
stream, the chunks `0 .. totalChunks-1` concatenated in index order; a stream
whose assembly throws (a chunk file is missing) is caught and skipped. -/
def assembledStreams (sess : UploadSession) : List (String × List Nat) :=
  sess.progress.filterMap (fun e =>
    match assembleChunks sess.chunkFiles e.1 (e.2.totalChunks.getD 0) with
    | some bytes => some (e.1, bytes)
    | none => none)

/-- The per-stream placeholder cloud URLs recorded at finalize. -/
def finalizeUrls (sess : UploadSession) (recordingId : String) : List (String × String) :=
  (assembledStreams sess).map (fun e => (e.1, cloudUrl recordingId e.1))

/-- The evidence record `finalize-upload` creates. -/
def finalizeDoc (st : Store) (req : FinalizeRequest) (meta : UploadMetadata)
    (sess : UploadSession) (userId freshIv : String) : EvidenceDoc :=
  { id := st.nextId, userId := userId,
    recordingId := some req.recordingId, sosId := none, evType := none,
    duration := some meta.duration,
    encryptionIv := some (meta.encryptionIv.getD freshIv),
    frontVideoUrl := lookupA (finalizeUrls sess req.recordingId) "frontVideo",
    backVideoUrl := lookupA (finalizeUrls sess req.recordingId) "backVideo",
    audioUrl := lookupA (finalizeUrls sess req.recordingId) "audioRecording",
    uploadStatus := some "completed",
    evidenceFiles := [], sharedWith := [], hash := none }

/-- The `SOSEvent.findOneAndUpdate(..., { upsert: true })` on the recording. -/
def upsertSosEvent (events : List SOSEventDoc) (recordingId userId status : String)
    (evidenceId freshId : Nat) : List SOSEventDoc :=
  match events.find? (fun ev => ev.recordingId == some recordingId) with
  | some _ =>
    events.map (fun ev =>
      if ev.recordingId == some recordingId then
        { ev with userId := userId, status := status, evidence := some evidenceId }
      else ev)
  | none =>
    events ++ [⟨freshId, userId, some recordingId, "sos", status, some evidenceId⟩]

/-- The success path of `finalize-upload` on a session that passed the
completeness check: assemble, create the record, upsert the SOS event, and
remove the upload directory (the 5-second deferred `rmSync` is modelled as
immediate). -/
def finalizeCore (st : Store) (req : FinalizeRequest) (meta : UploadMetadata)
    (sess : UploadSession) (userId freshIv : String) : FinalizeResult × Store :=
  let doc := finalizeDoc st req meta sess userId freshIv
  (.ok doc.id req.recordingId (finalizeUrls sess req.recordingId) (assembledStreams sess),
   { st with sessions := delA st.sessions req.uploadId,
             evidence := st.evidence ++ [doc],
             sosEvents := upsertSosEvent st.sosEvents req.recordingId userId
               (meta.status.getD "confirmed") doc.id (st.nextId + 1),
             nextId := st.nextId + 2 })

/-- The `finalize-upload` handler.  It checks only
`uploadedChunks !== totalChunks` per stream (returning on the first offender)
and otherwise runs the success path.  `freshIv` is the
`crypto.randomBytes(16)` fallback IV. -/
def finalizeUpload (st : Store) (req : FinalizeRequest) (userId freshIv : String) :
    FinalizeResult × Store :=
  match req.metadata with
  | none => (.missingFields, st)
  | some meta =>
    if req.uploadId = "" ∨ req.recordingId = "" then (.missingFields, st)
    else
      match lookupA st.sessions req.uploadId with
      | none => (.sessionNotFound, st)
      | some sess =>
        match sess.progress.find? (fun e => !streamComplete e.2) with
        | some e => (.incomplete e.1 e.2.uploadedChunks e.2.totalChunks, st)
        | none => finalizeCore st req meta sess userId freshIv

/-! ### POST /api/evidence/upload (`evidenceRoutes.js` 402-503, `part_004` 59-160) -/

/-- One multer file of the `POST /upload` request. -/
structure UploadFile where
  mimetype : String
  originalname : String
  bytes : List Nat
  size : Nat
deriving DecidableEq

/-- The `POST /upload` request: authenticated user, body fields, files. -/
structure UploadRequest where
  userId : String
  sosId : String
  evType : String
  files : List UploadFile
deriving DecidableEq

/-- Character-list test for `charsStartWith s pre`: `s` begins with `pre`. -/
def charsStartWith : List Char → List Char → Bool
  | _, [] => true
  | [], _ :: _ => false
  | c :: cs, p :: ps => c == p && charsStartWith cs ps

/-- `String.prototype.startsWith`, structurally on the characters. -/
def strStartsWith (s pre : String) : Bool := charsStartWith s.toList pre.toList

/-- `getEvidenceType`: map a mimetype onto the schema's evidence-type enum. -/
def getEvidenceType (mimetype : String) : String :=
  if strStartsWith mimetype "video/" then "video_front"
  else if strStartsWith mimetype "audio/" then "audio"
  else if strStartsWith mimetype "image/" then "photo"
  else "unknown"

/-- Responses of the `POST /upload` handler. -/
inductive UploadResult
  | noFiles
  | ok (id : Nat) (hash : String)
deriving DecidableEq

/-- The `POST /upload` handler: per file compute the SHA-256 hex digest of its
bytes and a secure URL from a fresh random token (`tokens i` is the hex of the
`crypto.randomBytes(16)` drawn for file `i`), then store the record with
`hash = sha256(join of the per-file hex digests)`. -/
def uploadEvidence (st : Store) (req : UploadRequest) (tokens : Nat → String) :
    UploadResult × Store :=
  if req.files = [] then (.noFiles, st)
  else
    let processed := req.files.enum.map (fun e =>
      (sha256Hex e.2.bytes,
       EvFile.mk (getEvidenceType e.2.mimetype) e.2.originalname e.2.bytes
         ("/api/evidence/file/" ++ tokens e.1) e.2.mimetype e.2.size))
    let fileHashes := processed.map (fun e => e.1)
    let hash := sha256HexOfString (String.join fileHashes)
    let doc : EvidenceDoc :=
      { id := st.nextId, userId := req.userId,
        recordingId := none, sosId := some req.sosId, evType := some req.evType,
        duration := none, encryptionIv := none,
        frontVideoUrl := none, backVideoUrl := none, audioUrl := none,
        uploadStatus := none,
        evidenceFiles := processed.map (fun e => e.2),
        sharedWith := [], hash := some hash }
    (.ok doc.id hash,
     { st with evidence := st.evidence ++ [doc], nextId := st.nextId + 1 })

/-! ### Evidence retrieval endpoints -/

/-- Result of a GET endpoint: 404, 403, or 200 with a payload. -/
inductive GetResult (α : Type)
  | notFound
  | accessDenied
  | ok (payload : α)
deriving DecidableEq

/-- The body `GET /api/sos-evidence/:recordingId` returns on success (the
signed-token query strings appended to the URLs are elided). -/
structure RecordingPayload where
  recordingId : String
  duration : Option Nat
  frontVideoUrl : Option String
  backVideoUrl : Option String
  audioUrl : Option String
  uploadStatus : Option String
deriving DecidableEq

/-- `GET /:recordingId` (`evidenceRoutes.js` 225-275): find the evidence by
recordingId, 404 when absent, 403 when the requester is not the owner. -/
def getRecording (st : Store) (userId rid : String) : GetResult RecordingPayload :=
  match st.evidence.find? (fun d => d.recordingId == some rid) with
  | none => .notFound
  | some d =>
    if d.userId ≠ userId then .accessDenied
    else .ok ⟨rid, d.duration, d.frontVideoUrl, d.backVideoUrl, d.audioUrl, d.uploadStatus⟩

/-- `GET /sos/:sosId` (`evidenceRoutes.js` 557-569): the requester's own
evidence for the SOS, newest first (`sort({createdAt: -1})` is the reverse of
insertion order here since ids are appended monotonically). -/
def getSosEvidence (st : Store) (userId sosId : String) : List EvidenceDoc :=
  (st.evidence.filter (fun d => d.sosId == some sosId && d.userId == userId)).reverse

/-- `GET /file/:token` (`evidenceRoutes.js` 631-664): look the secure URL up
among the requester's own records and serve the file bytes. -/
def getEvidenceFile (st : Store) (userId tok : String) :
    GetResult (List Nat × String × String) :=
  let url := "/api/evidence/file/" ++ tok
  match st.evidence.find? (fun d =>
      d.evidenceFiles.any (fun f => f.secureUrl == url) && d.userId == userId) with
  | none => .notFound
  | some d =>
    match d.evidenceFiles.find? (fun f => f.secureUrl == url) with
    | none => .notFound
    | some f => .ok (f.data, f.mimeType, f.filename)

/-! ### PUT /api/evidence/:evidenceId/share (`evidenceRoutes.js` 572-602) -/

/-- Responses of the share handler. -/
inductive ShareResult
  | notFound
  | ok (sharedWith : List ShareRecord)
deriving DecidableEq

/-- Rewrite the first list element satisfying `p` in place (a fetched mongoose
document saved back). -/
def updateFirst {α : Type} (p : α → Bool) (f : α → α) : List α → List α
  | [] => []
  | x :: xs => if p x then f x :: xs else x :: updateFirst p f xs

/-- The share handler: find the requester's evidence by id (404 otherwise) and
push one `{type, sharedAt}` record per requested party onto `sharedWith`. -/
def shareEvidence (st : Store) (userId : String) (evidenceId : Nat)
    (shareWith : List String) (now : Int) : ShareResult × Store :=
  match st.evidence.find? (fun d => d.id == evidenceId && d.userId == userId) with
  | none => (.notFound, st)
  | some d =>
    let added := shareWith.map (fun t => ShareRecord.mk t now)
    (.ok (d.sharedWith ++ added),
     { st with evidence :=
        (updateFirst (fun d => d.id == evidenceId && d.userId == userId)
          (fun d => { d with sharedWith := d.sharedWith ++ added }) st.evidence) })

/-! ### DELETE /api/sos-evidence/events/:eventId (`evidenceRoutes.js` 375-380) -/

/-- Responses of the delete handler. -/
inductive DeleteResult
  | forbidden
deriving DecidableEq

/-- The delete handler: an unconditional 403, for every caller and every
event id — SOS events cannot be deleted for legal evidence preservation. -/
def deleteEvent (st : Store) (_userId _eventId : String) : DeleteResult × Store :=
  (.forbidden, st)

/-! ### POST /api/sos/guardians/:guardianId/respond (`advancedSOSRoutes.js` 303-338) -/

/-- The response object the handler builds and echoes back. -/
structure GuardianResponse where
  guardianId : String
  sosEventId : String
  action : String
  reason : String
  respondedAt : Int
deriving DecidableEq

/-- The guardian-respond handler.  The persistence
(`GuardianResponse.create`, the `$push` of the response onto the SOS event)
and the on-accept location sharing are commented out in the source: the
handler builds the response object, returns `success` with the message
"Response recorded", and changes nothing. -/
def guardianRespond (st : Store) (guardianId sosEventId action reason : String)
    (now : Int) : GuardianResponse × Store :=
  (⟨guardianId, sosEventId, action, reason, now⟩, st)

/-! ### Volunteer routes (`unnamed/part_005`) -/

/-- `POST /api/volunteers/register`: mark the user a volunteer with the given
location and a fresh `volunteerLastActive`. -/
def registerVolunteer (st : Store) (userId : String) (now : Int) : Store :=
  { st with users := (updateFirst (fun u => u.id == userId)
      (fun u => { u with isVolunteer := true, hasVolunteerLocation := true,
                         volunteerLastActive := some now }) st.users) }

/-- `PUT /api/volunteers/location`: refresh a volunteer's position and
`volunteerLastActive` (only the latest point is retained). -/
def updateVolunteerLocation (st : Store) (userId : String) (now : Int) : Store :=
  { st with users := (updateFirst (fun u => u.id == userId && u.isVolunteer)
      (fun u => { u with hasVolunteerLocation := true,
                         volunteerLastActive := some now }) st.users) }

/-- `DELETE /api/volunteers/unregister`: clear the volunteer fields. -/
def unregisterVolunteer (st : Store) (userId : String) : Store :=
  { st with users := (updateFirst (fun u => u.id == userId)
      (fun u => { u with isVolunteer := false, hasVolunteerLocation := false,
                         volunteerLastActive := none }) st.users) }

/-- The 24-hour activity window of the nearby query:
`volunteerLastActive: { $gte: new Date(Date.now() - 24*60*60*1000) }`
(times in milliseconds; a document without the field never matches). -/
def withinLast24h (now : Int) (u : UserDoc) : Bool :=
  match u.volunteerLastActive with
  | none => false
  | some t => now - 86400000 ≤ t

/-- The `$near`-filtered pool of `GET /nearby/:lat/:lng/:radius`: volunteers
with a stored location, active within 24 hours, within the radius.  The
spherical distance of each stored point from the query point is abstracted as
`dist` (floating-point Haversine is not embedded); `$near` also sorts by it. -/
def volunteerPool (st : Store) (now : Int) (radiusMeters : Nat)
    (dist : UserDoc → Nat) : List UserDoc :=
  st.users.filter (fun u =>
    u.isVolunteer && u.hasVolunteerLocation && withinLast24h now u &&
      dist u ≤ radiusMeters)

/-- Insert into a sorted list, stably. -/
def insertSorted {α : Type} (le : α → α → Bool) (u : α) : List α → List α
  | [] => [u]
  | v :: vs => if le u v then u :: v :: vs else v :: insertSorted le u vs

/-- Insertion sort, used wherever the database returns results ordered by a
key (`$near` distance order, the canonical stream-type order). -/
def sortListBy {α : Type} (le : α → α → Bool) : List α → List α
  | [] => []
  | v :: vs => insertSorted le v (sortListBy le vs)

/-- `GET /nearby/:lat/:lng/:radius` (`unnamed/part_005` 116-162): the pool,
nearest first, capped by `.limit(20)`; however many match is a 200. -/
def nearbyVolunteers (st : Store) (now : Int) (radiusMeters : Nat)
    (dist : UserDoc → Nat) : List UserDoc :=
  (sortListBy (fun u v => dist u ≤ dist v)
    (volunteerPool st now radiusMeters dist)).take 20

/-! ### POST /api/sos/start (`index.js` 519-549) -/

/-- The `POST /api/sos/start` handler: append a new active SOS record. -/
def sosStart (st : Store) (userId sosType : String) : Store :=
  { st with sosEvents := st.sosEvents ++ [⟨st.nextId, userId, none, sosType, "active", none⟩],
            nextId := st.nextId + 1 }

/-! ### The mutating operation surface -/

/-- Every modelled state-changing endpoint, as one operation type: the claims
about what "no code path" can do are quantified over these. -/
inductive Op
  | chunk (req : ChunkRequest)
  | finalize (req : FinalizeRequest) (userId freshIv : String)
  | upload (req : UploadRequest) (tokens : Nat → String)
  | share (userId : String) (evidenceId : Nat) (shareWith : List String) (now : Int)
  | deleteEvt (userId eventId : String)
  | respond (guardianId sosEventId action reason : String) (now : Int)
  | volRegister (userId : String) (now : Int)
  | volLocation (userId : String) (now : Int)
  | volUnregister (userId : String)
  | sos (userId sosType : String)

/-- The state transition of one operation. -/
def applyOp (st : Store) : Op → Store
  | .chunk req => (uploadChunk st req).2
  | .finalize req userId freshIv => (finalizeUpload st req userId freshIv).2
  | .upload req tokens => (uploadEvidence st req tokens).2
  | .share userId evidenceId shareWith now => (shareEvidence st userId evidenceId shareWith now).2
  | .deleteEvt userId eventId => (deleteEvent st userId eventId).2
  | .respond guardianId sosEventId action reason now =>
      (guardianRespond st guardianId sosEventId action reason now).2
  | .volRegister userId now => registerVolunteer st userId now
  | .volLocation userId now => updateVolunteerLocation st userId now
  | .volUnregister userId => unregisterVolunteer st userId
  | .sos userId sosType => sosStart st userId sosType

/-! ### Concrete runs and spec-side definitions used by the claims -/

/-- Feed the chunks of one stream to `upload-chunk` in the given index order;
the bytes of chunk `i` are `c i` and every request declares `tc` total chunks. -/
def runChunks (st : Store) (uid rid ft : String) (tc : Option Nat) (c : Nat → List Nat)
    (order : List Nat) : Store :=
  order.foldl (fun s i => (uploadChunk s ⟨uid, rid, ft, some i, tc, some (c i)⟩).2) st

/-- A store mid-upload: one live session for `uid` with a single declared
stream `ft`, chunk files `cf`, and `uploadedChunks = L`. -/
def midStore (uid ft : String) (tc : Option Nat) (cf : List ((String × Nat) × List Nat))
    (L : Nat) : Store :=
  { emptyStore with sessions := [(uid, ⟨[(ft, ⟨L, tc⟩)], cf⟩)] }

/-- The chunk files after writing `c i` at `(ft, i)` for each `i` in order. -/
def writeAll (ft : String) (c : Nat → List Nat) (cf : List ((String × Nat) × List Nat))
    (order : List Nat) : List ((String × Nat) × List Nat) :=
  order.foldl (fun f i => setA f (ft, i) (c i)) cf

/-- The upload directory after receiving only chunk 1 of a 2-chunk stream:
`progress` already reads 2/2 because only `lastChunkIndex + 1` is tracked. -/
def gapSession : UploadSession :=
  ⟨[("audioRecording", ⟨2, some 2⟩)], [(("audioRecording", 1), [7, 8])]⟩

/-- A store holding only the gapped session. -/
def gapStore : Store := { emptyStore with sessions := [("u1", gapSession)] }

/-- A finalize request for that session, with full metadata. -/
def gapFinReq : FinalizeRequest := ⟨"u1", "r1", some ⟨5, 9, some "iv", none⟩⟩

/-- A chunk request for an unknown session, an undeclared stream, and an index
(5) at least the declared `totalChunks` (2). -/
def outOfRangeReq : ChunkRequest := ⟨"sess-unknown", "rec-1", "frontVideo", some 5, some 2, some [1, 2, 3]⟩

/-- A session whose stream has received chunks up to index 0 of 2, so the
completeness check reads 1/2. -/
def shortSession : UploadSession :=
  ⟨[("audioRecording", ⟨1, some 2⟩)], [(("audioRecording", 0), [9])]⟩

/-- A store holding only the short session. -/
def shortStore : Store := { emptyStore with sessions := [("u1", shortSession)] }

/-- The canonical rank of a stream type: the order of the schema's
`evidenceFiles.type` enum in `models/SOSEvidence.js`. -/
def streamTypeRank (t : String) : Nat :=
  if t = "video_front" then 0
  else if t = "video_back" then 1
  else if t = "audio" then 2
  else 3

/-- Modelled from the spec: `combinedHash = H(contentHash_1 ∥ contentHash_2 ∥
... in stream-type-canonical order)` — the SHA-256 hex digest of the
concatenated per-stream content hashes, streams taken in canonical
(schema-enum) order.  This is the spec's claimed value of `hash`, to be
compared with what `uploadEvidence` stores. -/
def specCombinedHash (doc : EvidenceDoc) : String :=
  sha256HexOfString (String.join
    ((sortListBy (fun f g => streamTypeRank f.ftype ≤ streamTypeRank g.ftype)
        doc.evidenceFiles).map
      (fun f => sha256Hex f.data)))

/-- The per-stream `(type, contentHash)` pairs of every stored record: what
the spec's combined-hash invariant is a function of (as a multiset). -/
def streamHashPairs (st : Store) : List (String × String) :=
  (st.evidence.map (fun d => d.evidenceFiles.map (fun f => (f.ftype, sha256Hex f.data)))).flatten

/-- A video file of one byte `0`. -/
def fileA : UploadFile := ⟨"video/mp4", "a.mp4", [0], 1⟩

/-- An audio file of one byte `1`. -/
def fileB : UploadFile := ⟨"audio/wav", "b.wav", [1], 1⟩

/-- Upload the two files video-first. -/
def storeAB : Store :=
  (uploadEvidence emptyStore ⟨"alice", "sos1", "panic", [fileA, fileB]⟩ (fun i => toString i)).2

/-- Upload the same two files audio-first. -/
def storeBA : Store :=
  (uploadEvidence emptyStore ⟨"alice", "sos1", "panic", [fileB, fileA]⟩ (fun i => toString i)).2

/-- A volunteer whose last heartbeat is within 24 hours of `demoNow`. -/
def freshVol : UserDoc := ⟨"v1", "Fresh", "111", true, some 90000000, true⟩

/-- A volunteer whose last heartbeat is more than 24 hours before `demoNow`. -/
def staleVol : UserDoc := ⟨"v2", "Stale", "222", true, some 1000, true⟩

/-- The query time of the volunteer demo. -/
def demoNow : Int := 100000000

/-- A store with one fresh and one stale volunteer. -/
def volStore : Store := { emptyStore with users := [freshVol, staleVol] }

/-- An evidence record owned by alice, with one file behind a secure URL. -/
def aliceDoc : EvidenceDoc :=
  { id := 0, userId := "alice", recordingId := some "rec1", sosId := some "sos1",
    evType := some "panic", duration := none, encryptionIv := none,
    frontVideoUrl := none, backVideoUrl := none, audioUrl := none,
    uploadStatus := some "completed",
    evidenceFiles := [⟨"audio", "a.wav", [5], "/api/evidence/file/tok1", "audio/wav", 1⟩],
    sharedWith := [], hash := none }

/-- A store holding only alice's record. -/
def aliceStore : Store := { emptyStore with evidence := [aliceDoc], nextId := 1 }

/-! ### Association-list lemmas -/

theorem lookupA_setA_self {α β : Type} [DecidableEq α] (l : List (α × β)) (k : α) (v : β) :
    lookupA (setA l k v) k = some v := by
  induction l with
  | nil => simp [setA, lookupA]
  | cons x xs ih =>
    obtain ⟨a, b⟩ := x
    by_cases h : a = k
    · simp [setA, h, lookupA]
    · simp [setA, h, lookupA, ih]

theorem setA_setA {α β : Type} [DecidableEq α] (l : List (α × β)) (k : α) (v w : β) :
    setA (setA l k v) k w = setA l k w := by
  induction l with
  | nil => simp [setA]
  | cons x xs ih =>
    obtain ⟨a, b⟩ := x
    by_cases h : a = k
    · simp [setA, h]
    · simp [setA, h, ih]

theorem lookupA_updA_self {α β : Type} [DecidableEq α] (l : List (α × β)) (k : α) (f : β → β) :
    lookupA (updA l k f) k = (lookupA l k).map f := by
  induction l with
  | nil => simp [updA, lookupA]
  | cons x xs ih =>
    obtain ⟨a, b⟩ := x
    by_cases h : a = k
    · simp [updA, h, lookupA]
    · simp [updA, h, lookupA, ih]

theorem updA_fixed {α β : Type} [DecidableEq α] (l : List (α × β)) (k : α) (f : β → β)
    (h : ∀ v, lookupA l k = some v → f v = v) : updA l k f = l := by
  induction l with
  | nil => simp [updA]
  | cons x xs ih =>
    obtain ⟨a, b⟩ := x
    by_cases hk : a = k
    · have := h b (by simp [lookupA, hk])
      simp [updA, hk, this]
    · have ih2 := ih (fun v hv => h v (by simpa [lookupA, hk] using hv))
      simp [updA, hk, ih2]

theorem lookupA_append_of_none {α β : Type} [DecidableEq α] (l : List (α × β)) (k : α) (v : β)
    (h : lookupA l k = none) : lookupA (l ++ [(k, v)]) k = some v := by
  induction l with
  | nil => simp [lookupA]
  | cons x xs ih =>
    obtain ⟨a, b⟩ := x
    by_cases hk : a = k
    · simp [lookupA, hk] at h
    · simp [lookupA, hk] at h ⊢
      exact ih h

/-- After `putChunkCore`, the stream's progress entry exists and reads
`uploadedChunks = idx + 1` (with the `totalChunks` it was created with). -/
theorem putChunkCore_progress_lookup (sess : UploadSession) (ft : String) (idx : Nat)
    (tc : Option Nat) (bytes : List Nat) :
    ∃ tc2, lookupA (putChunkCore sess ft idx tc bytes).progress ft =
      some ⟨idx + 1, tc2⟩ := by
  unfold putChunkCore
  cases h : lookupA sess.progress ft with
  | some p =>
    refine ⟨p.totalChunks, ?_⟩
    simp only [h]
    rw [lookupA_updA_self, h]
    rfl
  | none =>
    refine ⟨tc, ?_⟩
    simp only [h]
    rw [lookupA_updA_self, lookupA_append_of_none _ _ _ h]
    rfl

/-- `putChunkCore` is idempotent on the session. -/
theorem putChunkCore_idem (sess : UploadSession) (ft : String) (idx : Nat)
    (tc : Option Nat) (bytes : List Nat) :
    putChunkCore (putChunkCore sess ft idx tc bytes) ft idx tc bytes =
      putChunkCore sess ft idx tc bytes := by
  obtain ⟨tc2, hlook⟩ := putChunkCore_progress_lookup sess ft idx tc bytes
  have hcf : (putChunkCore sess ft idx tc bytes).chunkFiles
      = setA sess.chunkFiles (ft, idx) bytes := rfl
  conv_lhs => rw [putChunkCore]
  simp only [hlook]
  rw [updA_fixed]
  · rw [hcf, setA_setA, ← hcf]
  · intro v hv
    rw [hlook] at hv
    cases hv
    rfl

/-! ### Sorting lemmas -/

theorem length_insertSorted (le : UserDoc → UserDoc → Bool) (u : UserDoc) (l : List UserDoc) :
    (insertSorted le u l).length = l.length + 1 := by
  induction l with
  | nil => rfl
  | cons v vs ih =>
    by_cases h : le u v = true
    · simp [insertSorted, h]
    · simp [insertSorted, h, ih]

theorem mem_insertSorted (le : UserDoc → UserDoc → Bool) (u w : UserDoc) (l : List UserDoc) :
    w ∈ insertSorted le u l ↔ w = u ∨ w ∈ l := by
  induction l with
  | nil => simp [insertSorted]
  | cons v vs ih =>
    simp only [insertSorted]
    cases hle : le u v with
    | true =>
      simp only [if_true, List.mem_cons]
    | false =>
      simp only [Bool.false_eq_true, if_false, List.mem_cons, ih]
      tauto

theorem length_sortListBy (le : UserDoc → UserDoc → Bool) (l : List UserDoc) :
    (sortListBy le l).length = l.length := by
  induction l with
  | nil => rfl
  | cons v vs ih => simp [sortListBy, length_insertSorted, ih]

theorem mem_sortListBy (le : UserDoc → UserDoc → Bool) (w : UserDoc) (l : List UserDoc) :
    w ∈ sortListBy le l ↔ w ∈ l := by
  induction l with
  | nil => simp [sortListBy]
  | cons v vs ih =>
    simp only [sortListBy, mem_insertSorted, List.mem_cons, ih]

/-! ### Per-operation store-component lemmas -/

theorem uploadChunk_snd_evidence (st : Store) (req : ChunkRequest) :
    (uploadChunk st req).2.evidence = st.evidence := by
  unfold uploadChunk
  cases req.chunkIndex with
  | none => rfl
  | some idx =>
    by_cases hmf : req.uploadId = "" ∨ req.recordingId = "" ∨ req.fileType = ""
    · simp [hmf]
    · cases req.chunk with
      | none => simp [hmf]
      | some bytes => simp [hmf]

theorem find?_id_finalizeUpload (st : Store) (req : FinalizeRequest) (userId freshIv : String)
    (e : Nat) (d : EvidenceDoc) (hd : st.evidence.find? (fun x => x.id == e) = some d) :
    (finalizeUpload st req userId freshIv).2.evidence.find? (fun x => x.id == e) = some d := by
  unfold finalizeUpload
  cases hm : req.metadata with
  | none => exact hd
  | some meta =>
    by_cases hmf : req.uploadId = "" ∨ req.recordingId = ""
    · simp only [hmf, if_true]
      exact hd
    · simp only [hmf, if_false]
      cases hs : lookupA st.sessions req.uploadId with
      | none => exact hd
      | some sess =>
        cases hf : sess.progress.find? (fun x => !streamComplete x.2) with
        | some x =>
          dsimp only
          rw [hf]
          exact hd
        | none =>
          dsimp only
          rw [hf]
          show ((finalizeCore st req meta sess userId freshIv).2.evidence.find?
            (fun x => x.id == e)) = some d
          rw [finalizeCore]
          simp only [List.find?_append, hd]
          rfl

theorem find?_id_uploadEvidence (st : Store) (req : UploadRequest) (tokens : Nat → String)
    (e : Nat) (d : EvidenceDoc) (hd : st.evidence.find? (fun x => x.id == e) = some d) :
    (uploadEvidence st req tokens).2.evidence.find? (fun x => x.id == e) = some d := by
  unfold uploadEvidence
  by_cases hn : req.files = []
  · simp only [hn, if_true]
    exact hd
  · simp only [hn, if_false, List.find?_append, hd]
    rfl

theorem find?_id_updateFirst_share (l : List EvidenceDoc) (p : EvidenceDoc → Bool)
    (recs : List ShareRecord) (e : Nat) (d : EvidenceDoc)
    (hd : l.find? (fun x => x.id == e) = some d) :
    ∃ d2, (updateFirst p (fun x => { x with sharedWith := x.sharedWith ++ recs }) l).find?
      (fun x => x.id == e) = some d2 ∧ ∃ t, d2.sharedWith = d.sharedWith ++ t := by
  induction l with
  | nil => simp [List.find?] at hd
  | cons x xs ih =>
    rw [List.find?_cons] at hd
    by_cases hp : p x = true
    · by_cases he : (x.id == e) = true
      · simp only [he] at hd
        have hxd := Option.some.inj hd
        subst hxd
        refine ⟨{ x with sharedWith := x.sharedWith ++ recs }, ?_, recs, rfl⟩
        simp [updateFirst, hp, List.find?_cons, he]
      · simp only [Bool.not_eq_true] at he
        simp only [he] at hd
        refine ⟨d, ?_, [], by simp⟩
        simp [updateFirst, hp, List.find?_cons, he, hd]
    · by_cases he : (x.id == e) = true
      · simp only [he] at hd
        have hxd := Option.some.inj hd
        subst hxd
        refine ⟨x, ?_, [], by simp⟩
        simp [updateFirst, hp, List.find?_cons, he]
      · simp only [Bool.not_eq_true] at he
        simp only [he] at hd
        obtain ⟨d2, h1, t, h2⟩ := ih hd
        refine ⟨d2, ?_, t, h2⟩
        simp [updateFirst, hp, List.find?_cons, he, h1]

theorem find?_id_applyOp (st : Store) (op : Op) (e : Nat) (d : EvidenceDoc)
    (hd : st.evidence.find? (fun x => x.id == e) = some d) :
    ∃ d2, (applyOp st op).evidence.find? (fun x => x.id == e) = some d2 ∧
      ∃ t, d2.sharedWith = d.sharedWith ++ t := by
  cases op with
  | chunk req =>
    refine ⟨d, ?_, [], by simp⟩
    rw [applyOp, uploadChunk_snd_evidence]
    exact hd
  | finalize req userId freshIv =>
    exact ⟨d, find?_id_finalizeUpload st req userId freshIv e d hd, [], by simp⟩
  | upload req tokens =>
    exact ⟨d, find?_id_uploadEvidence st req tokens e d hd, [], by simp⟩
  | share userId evidenceId shareWith now =>
    rw [applyOp]
    unfold shareEvidence
    cases hf : st.evidence.find? (fun x => x.id == evidenceId && x.userId == userId) with
    | none => exact ⟨d, hd, [], by simp⟩
    | some d0 =>
      simp only []
      exact find?_id_updateFirst_share st.evidence _ _ e d hd
  | deleteEvt userId eventId => exact ⟨d, hd, [], by simp⟩
  | respond g sid a r now => exact ⟨d, hd, [], by simp⟩
  | volRegister userId now => exact ⟨d, hd, [], by simp⟩
  | volLocation userId now => exact ⟨d, hd, [], by simp⟩
  | volUnregister userId => exact ⟨d, hd, [], by simp⟩
  | sos userId sosType => exact ⟨d, hd, [], by simp⟩

/-! ### Claim C3: putChunk is idempotent -/

/-- C3.  Submitting the same chunk request twice is idempotent: the repeated
`upload-chunk` call returns the same response and leaves the store exactly as
after the first call — the chunk file is overwritten in place and
`uploadedChunks` is re-set to the same `chunkIndex + 1`, so the stream's
received-chunk count is unchanged by the second call. -/
theorem uploadChunk_idempotent (st : Store) (req : ChunkRequest) :
    uploadChunk (uploadChunk st req).2 req = uploadChunk st req := by
  unfold uploadChunk
  cases hidx : req.chunkIndex with
  | none => simp
  | some idx =>
    by_cases hmf : req.uploadId = "" ∨ req.recordingId = "" ∨ req.fileType = ""
    · simp [hmf]
    · cases hc : req.chunk with
      | none => simp [hmf]
      | some bytes =>
        simp only [hmf, if_false]
        rw [lookupA_setA_self]
        simp only [Option.getD_some]
        rw [putChunkCore_idem, setA_setA]

/-! ### Claim C6: putChunk error cases -/

/-- C6 (amended).  `upload-chunk` validates only the presence of `uploadId`,
`recordingId`, `fileType`, `chunkIndex` and the chunk file.  With those
present it always succeeds: it creates the upload session on demand instead
of failing with `UnknownSession`, registers the stream on first use instead
of failing with `StreamNotDeclared`, and accepts any chunk index — even one
at or beyond the declared `totalChunks` — instead of failing with
`IndexOutOfRange`. -/
theorem uploadChunk_only_presence_checks (st : Store) (req : ChunkRequest) (idx : Nat)
    (bytes : List Nat) (hidx : req.chunkIndex = some idx) (hb : req.chunk = some bytes)
    (h1 : req.uploadId ≠ "") (h2 : req.recordingId ≠ "") (h3 : req.fileType ≠ "") :
    ∃ progress st2, uploadChunk st req =
      (.ok req.uploadId req.recordingId req.fileType idx req.totalChunks progress, st2) := by
  unfold uploadChunk
  rw [hidx]
  dsimp only
  rw [if_neg (by simp [h1, h2, h3])]
  rw [hb]
  exact ⟨_, _, rfl⟩

/-- Witness for `uploadChunk_only_presence_checks`: a request naming an
unknown session, an undeclared stream, and chunk index 5 of a 2-chunk stream
still succeeds. -/
theorem uploadChunk_only_presence_checks_witness :
    outOfRangeReq.chunkIndex = some 5 ∧ outOfRangeReq.chunk = some [1, 2, 3] ∧
    outOfRangeReq.uploadId ≠ "" ∧ outOfRangeReq.recordingId ≠ "" ∧
    outOfRangeReq.fileType ≠ "" ∧
    ∃ progress st2, uploadChunk emptyStore outOfRangeReq =
      (.ok outOfRangeReq.uploadId outOfRangeReq.recordingId outOfRangeReq.fileType 5
        outOfRangeReq.totalChunks progress, st2) :=
  ⟨rfl, rfl, by decide, by decide, by decide,
   uploadChunk_only_presence_checks emptyStore outOfRangeReq 5 [1, 2, 3] rfl rfl
     (by decide) (by decide) (by decide)⟩

/-- C6 as stated is false: on an empty store, a chunk for a session that does
not exist, a stream never declared, and index 5 of a declared total of 2 is
accepted with success — not rejected with `UnknownSession`,
`StreamNotDeclared` or `IndexOutOfRange`. -/
theorem uploadChunk_missing_checks_counterexample :
    lookupA emptyStore.sessions "sess-unknown" = none ∧ 2 ≤ 5 ∧
    (uploadChunk emptyStore outOfRangeReq).1 =
      ChunkResult.ok "sess-unknown" "rec-1" "frontVideo" 5 (some 2)
        [("frontVideo", ⟨6, some 2⟩)] := by decide

/-! ### Claim C5: first accepted response settles the incident -/

/-- C5 is about behaviour the handler does not have: the guardian-respond
handler persists nothing.  For any two accepted responses (in either order,
any guardians, any SOS event), the store after both calls is exactly the
store before, the SOS events — and hence every status — are untouched, and
each call merely echoes the response object it built.  No response is
recorded and no incident is ever settled `RESOLVED` by a response. -/
theorem guardianRespond_persists_nothing (st : Store) (g1 g2 sid r1 r2 : String)
    (t1 t2 : Int) :
    (guardianRespond st g1 sid "ACCEPTED" r1 t1).2 = st ∧
    (guardianRespond ((guardianRespond st g1 sid "ACCEPTED" r1 t1).2) g2 sid
        "ACCEPTED" r2 t2).2 = st ∧
    (guardianRespond st g1 sid "ACCEPTED" r1 t1).1 =
      ⟨g1, sid, "ACCEPTED", r1, t1⟩ ∧
    ((guardianRespond st g1 sid "ACCEPTED" r1 t1).2).sosEvents = st.sosEvents :=
  ⟨rfl, rfl, rfl, rfl⟩

/-! ### Claim C8: deletion is always rejected -/

/-- C8.  The `DELETE /events/:eventId` handler returns 403 for every caller
and every event id, leaving the store untouched; and no modelled operation
removes an evidence record: any record reachable by id before an operation is
still reachable after it. -/
theorem deletion_always_rejected (st : Store) :
    (∀ userId eventId, deleteEvent st userId eventId = (.forbidden, st)) ∧
    (∀ (op : Op) (e : Nat), (st.evidence.find? (fun x => x.id == e)).isSome = true →
      ((applyOp st op).evidence.find? (fun x => x.id == e)).isSome = true) := by
  refine ⟨fun _ _ => rfl, fun op e he => ?_⟩
  obtain ⟨d, hd⟩ := Option.isSome_iff_exists.mp he
  obtain ⟨d2, hd2, _⟩ := find?_id_applyOp st op e d hd
  rw [hd2]
  rfl

/-- Witness for `deletion_always_rejected`: alice's record survives a share
operation, and bob's delete request is rejected. -/
theorem deletion_always_rejected_witness :
    (aliceStore.evidence.find? (fun x => x.id == 0)).isSome = true ∧
    ((applyOp aliceStore (.share "alice" 0 ["police"] 0)).evidence.find?
      (fun x => x.id == 0)).isSome = true ∧
    deleteEvent aliceStore "bob" "ev1" = (.forbidden, aliceStore) :=
  ⟨by decide,
   (deletion_always_rejected aliceStore).2 (.share "alice" 0 ["police"] 0) 0 (by decide),
   (deletion_always_rejected aliceStore).1 "bob" "ev1"⟩

/-! ### Claim C7: sharedWith only grows -/

/-- C7.  For every modelled operation, an evidence record reachable by id
keeps its `sharedWith` as a left factor: the operation either leaves it alone
or appends to it — no code path shortens it.  The share endpoint itself
returns the old list with the new `{type, sharedAt}` records appended, and
sharing against an evidenceId no record carries fails with `NotFound` and
changes nothing. -/
theorem sharedWith_append_only (st : Store) :
    (∀ (op : Op) (e : Nat) (d : EvidenceDoc),
      st.evidence.find? (fun x => x.id == e) = some d →
      ∃ d2, (applyOp st op).evidence.find? (fun x => x.id == e) = some d2 ∧
        ∃ t, d2.sharedWith = d.sharedWith ++ t) ∧
    (∀ (userId : String) (e : Nat) (shareWith : List String) (now : Int) (d : EvidenceDoc),
      st.evidence.find? (fun x => x.id == e && x.userId == userId) = some d →
      (shareEvidence st userId e shareWith now).1 =
        .ok (d.sharedWith ++ shareWith.map (fun t => ⟨t, now⟩))) ∧
    (∀ (userId : String) (e : Nat) (shareWith : List String) (now : Int),
      (∀ x ∈ st.evidence, (x.id == e) = false) →
      shareEvidence st userId e shareWith now = (.notFound, st)) := by
  refine ⟨fun op e d hd => find?_id_applyOp st op e d hd, ?_, ?_⟩
  · intro userId e shareWith now d hd
    unfold shareEvidence
    rw [hd]
  · intro userId e shareWith now hnone
    unfold shareEvidence
    rw [List.find?_eq_none.mpr (fun x hx => by simp [hnone x hx])]

/-- Witness for `sharedWith_append_only`: sharing alice's record appends one
record, and sharing a nonexistent id 7 is `NotFound`. -/
theorem sharedWith_append_only_witness :
    aliceStore.evidence.find? (fun x => x.id == 0) = some aliceDoc ∧
    (∃ d2, (applyOp aliceStore (.share "alice" 0 ["police"] 0)).evidence.find?
        (fun x => x.id == 0) = some d2 ∧
      ∃ t, d2.sharedWith = aliceDoc.sharedWith ++ t) ∧
    shareEvidence aliceStore "alice" 7 ["police"] 0 = (.notFound, aliceStore) :=
  ⟨by decide,
   (sharedWith_append_only aliceStore).1 (.share "alice" 0 ["police"] 0) 0 aliceDoc (by decide),
   (sharedWith_append_only aliceStore).2.2 "alice" 7 ["police"] 0 (by decide)⟩

/-! ### Claim C9: nearby ranking excludes the stale, small pools succeed -/

/-- C9.  Every volunteer the nearby query returns has a `volunteerLastActive`
at most 24 hours (86400000 ms) before the query time — anyone staler, or
without a heartbeat, is excluded entirely; and when the matching pool has at
most the 20-result cap, the query returns exactly the pool (sorted), never an
error for returning fewer than the cap. -/
theorem nearby_excludes_stale_small_pool_ok (st : Store) (now : Int) (radius : Nat)
    (dist : UserDoc → Nat) :
    (∀ u ∈ nearbyVolunteers st now radius dist,
      ∃ t, u.volunteerLastActive = some t ∧ now - 86400000 ≤ t) ∧
    ((volunteerPool st now radius dist).length ≤ 20 →
      (nearbyVolunteers st now radius dist).length =
        (volunteerPool st now radius dist).length ∧
      ∀ u, u ∈ nearbyVolunteers st now radius dist ↔
        u ∈ volunteerPool st now radius dist) := by
  constructor
  · intro u hu
    have hmem : u ∈ volunteerPool st now radius dist :=
      (mem_sortListBy _ _ _).mp (List.mem_of_mem_take hu)
    have hfilter := (List.mem_filter.mp hmem).2
    simp only [Bool.and_eq_true] at hfilter
    have h24 : withinLast24h now u = true := hfilter.1.2
    cases ht : u.volunteerLastActive with
    | none => simp [withinLast24h, ht] at h24
    | some t =>
      refine ⟨t, rfl, ?_⟩
      simpa [withinLast24h, ht] using h24
  · intro hlen
    have htake : nearbyVolunteers st now radius dist =
        sortListBy (fun u v => dist u ≤ dist v) (volunteerPool st now radius dist) := by
      rw [nearbyVolunteers]
      exact List.take_of_length_le (by rw [length_sortListBy]; exact hlen)
    constructor
    · rw [htake, length_sortListBy]
    · intro u
      rw [htake]
      exact mem_sortListBy _ _ _

/-- Witness for `nearby_excludes_stale_small_pool_ok`: with one fresh and one
stale volunteer, the pool is the one fresh volunteer — below the cap — and
the returned fresh volunteer is within the 24-hour window. -/
theorem nearby_excludes_stale_small_pool_ok_witness :
    freshVol ∈ nearbyVolunteers volStore demoNow 5000 (fun _ => 0) ∧
    (∃ t, freshVol.volunteerLastActive = some t ∧ demoNow - 86400000 ≤ t) ∧
    (volunteerPool volStore demoNow 5000 (fun _ => 0)).length ≤ 20 ∧
    (nearbyVolunteers volStore demoNow 5000 (fun _ => 0)).length =
      (volunteerPool volStore demoNow 5000 (fun _ => 0)).length :=
  ⟨by decide,
   (nearby_excludes_stale_small_pool_ok volStore demoNow 5000 (fun _ => 0)).1
     freshVol (by decide),
   by decide,
   ((nearby_excludes_stale_small_pool_ok volStore demoNow 5000 (fun _ => 0)).2
     (by decide)).1⟩

/-! ### Claim C10: evidence reads are owner-only -/

/-- C10.  Each evidence retrieval endpoint returns content only to the stored
record's owner: `GET /:recordingId` answers 200 only when the found record's
`userId` equals the requester and 403 whenever it does not; `GET /sos/:sosId`
returns only records whose `userId` is the requester; and `GET /file/:token`
serves bytes only out of a record owned by the requester. -/
theorem evidence_reads_owner_only (st : Store) (userId rid sosId tok : String) :
    (∀ p, getRecording st userId rid = .ok p →
      ∃ d ∈ st.evidence, d.recordingId = some rid ∧ d.userId = userId) ∧
    (∀ d, st.evidence.find? (fun x => x.recordingId == some rid) = some d →
      d.userId ≠ userId → getRecording st userId rid = .accessDenied) ∧
    (∀ d ∈ getSosEvidence st userId sosId, d.userId = userId) ∧
    (∀ out, getEvidenceFile st userId tok = .ok out →
      ∃ d ∈ st.evidence, d.userId = userId ∧
        ∃ f ∈ d.evidenceFiles, f.secureUrl = "/api/evidence/file/" ++ tok ∧
          out = (f.data, f.mimeType, f.filename)) := by
  refine ⟨?_, ?_, ?_, ?_⟩
  · intro p hp
    unfold getRecording at hp
    cases hf : st.evidence.find? (fun x => x.recordingId == some rid) with
    | none => rw [hf] at hp; cases hp
    | some d =>
      rw [hf] at hp
      dsimp only at hp
      by_cases hu : d.userId ≠ userId
      · rw [if_pos hu] at hp; cases hp
      · refine ⟨d, List.mem_of_find?_eq_some hf, ?_, not_not.mp hu⟩
        have := List.find?_some hf
        exact beq_iff_eq.mp this
  · intro d hf hu
    unfold getRecording
    rw [hf]
    dsimp only
    rw [if_pos hu]
  · intro d hd
    have hmem := List.mem_reverse.mp hd
    have := (List.mem_filter.mp hmem).2
    simp only [Bool.and_eq_true] at this
    exact beq_iff_eq.mp this.2
  · intro out hout
    simp only [getEvidenceFile] at hout
    cases hf : st.evidence.find? (fun d =>
        d.evidenceFiles.any (fun f => f.secureUrl == "/api/evidence/file/" ++ tok) &&
          d.userId == userId) with
    | none => rw [hf] at hout; cases hout
    | some d =>
      rw [hf] at hout
      dsimp only at hout
      cases hg : d.evidenceFiles.find? (fun f => f.secureUrl == "/api/evidence/file/" ++ tok) with
      | none => rw [hg] at hout; cases hout
      | some f =>
        rw [hg] at hout
        have hdprop := List.find?_some hf
        simp only [Bool.and_eq_true] at hdprop
        have hfp := List.find?_some hg
        refine ⟨d, List.mem_of_find?_eq_some hf, beq_iff_eq.mp hdprop.2,
          f, List.mem_of_find?_eq_some hg, beq_iff_eq.mp hfp, ?_⟩
        cases hout
        rfl

/-- Witness for `evidence_reads_owner_only`: bob, who does not own alice's
record, gets 403 from `GET /:recordingId`. -/
theorem evidence_reads_owner_only_witness :
    aliceStore.evidence.find? (fun x => x.recordingId == some "rec1") = some aliceDoc ∧
    aliceDoc.userId ≠ "bob" ∧
    getRecording aliceStore "bob" "rec1" = .accessDenied :=
  ⟨by decide, by decide,
   (evidence_reads_owner_only aliceStore "bob" "rec1" "s" "t").2.1 aliceDoc
     (by decide) (by decide)⟩

/-! ### Claim C1: finalize on an incomplete session -/

/-- C1 (amended).  When finalize runs against a live session some declared
stream of which fails the code's completeness test — `uploadedChunks` (the
last received chunk index plus one) differs from the declared `totalChunks` —
it fails with an incomplete-upload error carrying that stream's name and its
received/total counts (not a list of missing indexes), creates no evidence
record, and leaves the whole store, session included, unchanged.  (A stream
whose last received chunk is `totalChunks - 1` passes this test even when
earlier indexes were never received, so a gap alone does not make finalize
fail; see the counterexample.) -/
theorem finalize_incomplete_rejected (st : Store) (req : FinalizeRequest)
    (userId freshIv : String) (meta : UploadMetadata) (hm : req.metadata = some meta)
    (h1 : req.uploadId ≠ "") (h2 : req.recordingId ≠ "")
    (sess : UploadSession) (hs : lookupA st.sessions req.uploadId = some sess)
    (hinc : ∃ e ∈ sess.progress, streamComplete e.2 = false) :
    ∃ ft received total,
      finalizeUpload st req userId freshIv = (.incomplete ft received total, st) ∧
      (ft, StreamProgress.mk received total) ∈ sess.progress ∧
      some received ≠ total := by
  have hfind : (sess.progress.find? (fun e => !streamComplete e.2)).isSome = true := by
    rw [List.find?_isSome]
    obtain ⟨e, he, hc⟩ := hinc
    exact ⟨e, he, by rw [hc]; rfl⟩
  obtain ⟨e, hfe⟩ := Option.isSome_iff_exists.mp hfind
  have hprop := List.find?_some hfe
  have hmem := List.mem_of_find?_eq_some hfe
  refine ⟨e.1, e.2.uploadedChunks, e.2.totalChunks, ?_, hmem, ?_⟩
  · unfold finalizeUpload
    rw [hm]
    dsimp only
    rw [if_neg (by simp [h1, h2])]
    rw [hs]
    dsimp only
    rw [hfe]
  · have hc : streamComplete e.2 = false := by simpa using hprop
    rw [streamComplete] at hc
    simpa using hc

/-- Witness for `finalize_incomplete_rejected`: a session that received only
chunk 0 of 2 reads 1/2 and finalize rejects it, leaving the store unchanged. -/
theorem finalize_incomplete_rejected_witness :
    gapFinReq.metadata = some ⟨5, 9, some "iv", none⟩ ∧
    gapFinReq.uploadId ≠ "" ∧ gapFinReq.recordingId ≠ "" ∧
    lookupA shortStore.sessions gapFinReq.uploadId = some shortSession ∧
    (∃ e ∈ shortSession.progress, streamComplete e.2 = false) ∧
    ∃ ft received total,
      finalizeUpload shortStore gapFinReq "alice" "iv" =
        (.incomplete ft received total, shortStore) ∧
      (ft, StreamProgress.mk received total) ∈ shortSession.progress ∧
      some received ≠ total :=
  ⟨rfl, by decide, by decide, rfl,
   ⟨("audioRecording", ⟨1, some 2⟩), by decide, by decide⟩,
   finalize_incomplete_rejected shortStore gapFinReq "alice" "iv" _ rfl
     (by decide) (by decide) shortSession rfl
     ⟨("audioRecording", ⟨1, some 2⟩), by decide, by decide⟩⟩

/-- C1 as stated is false: after receiving only chunk 1 of a declared
2-chunk stream (index 0 never arrives), the progress file already reads 2/2,
and finalize succeeds — it returns `ok`, creates an evidence record, and
reports no missing indexes — because only `lastChunkIndex + 1` is tracked,
not which indexes arrived. -/
theorem finalize_gap_counterexample :
    (uploadChunk emptyStore ⟨"u1", "r1", "audioRecording", some 1, some 2, some [7, 8]⟩).2
      = gapStore ∧
    lookupA gapSession.chunkFiles ("audioRecording", 0) = none ∧
    lookupA gapSession.progress "audioRecording" = some ⟨2, some 2⟩ ∧
    (finalizeUpload gapStore gapFinReq "alice" "iv").1 = FinalizeResult.ok 0 "r1" [] [] ∧
    (finalizeUpload gapStore gapFinReq "alice" "iv").2.evidence.length = 1 := by decide

/-! ### Claim C2: order-independence of finalize (counterexample part) -/

/-- C2 as stated is false: receiving the two chunks of a 2-chunk stream in
the order 1, 0 — a cover of indexes 0..1, each exactly once — makes finalize
fail as incomplete (progress reads 1/2 after the last write), while the
in-order receipt 0, 1 finalizes successfully; the two interleavings do not
even agree on success. -/
theorem finalize_order_counterexample :
    List.Perm [1, 0] (List.range 2) ∧
    (finalizeUpload (runChunks emptyStore "u1" "r1" "audioRecording" (some 2)
        (fun i => [100 + i]) [1, 0]) gapFinReq "alice" "iv").1 =
      FinalizeResult.incomplete "audioRecording" 1 (some 2) ∧
    (finalizeUpload (runChunks emptyStore "u1" "r1" "audioRecording" (some 2)
        (fun i => [100 + i]) [0, 1]) gapFinReq "alice" "iv").1 =
      FinalizeResult.ok 0 "r1" [("audioRecording", cloudUrl "r1" "audioRecording")]
        [("audioRecording", [100, 101])] := by decide

/-! ### Claim C2: order-independence of finalize (amended theorem) -/

theorem lookupA_setA_of_ne {α β : Type} [DecidableEq α] (l : List (α × β)) (k a : α) (v : β)
    (h : a ≠ k) : lookupA (setA l k v) a = lookupA l a := by
  induction l with
  | nil =>
    simp only [setA, lookupA]
    rw [if_neg (fun hh => h hh.symm)]
  | cons x xs ih =>
    obtain ⟨b, w⟩ := x
    by_cases hb : b = k
    · subst hb
      simp only [setA, if_pos rfl, lookupA]
      rw [if_neg (fun hh => h hh.symm), if_neg (fun hh => h hh.symm)]
    · simp only [setA, hb, if_false]
      by_cases hba : b = a
      · simp [lookupA, hba]
      · simp [lookupA, hba, ih]

theorem getLast?_cons_getD (i : Nat) (rest : List Nat) :
    (i :: rest).getLast? = some (rest.getLast?.getD i) := by
  cases rest with
  | nil => rfl
  | cons b l =>
    rw [List.getLast?_cons_cons]
    cases h : (b :: l).getLast? with
    | none => simp at h
    | some x => rfl

theorem uploadChunk_mid_step (uid rid ft : String) (hu : uid ≠ "") (hr : rid ≠ "")
    (hf : ft ≠ "") (tc : Option Nat) (c : Nat → List Nat) (i : Nat)
    (cf : List ((String × Nat) × List Nat)) (L : Nat) :
    (uploadChunk (midStore uid ft tc cf L) ⟨uid, rid, ft, some i, tc, some (c i)⟩).2 =
      midStore uid ft tc (setA cf (ft, i) (c i)) (i + 1) := by
  unfold uploadChunk
  dsimp only
  rw [if_neg (by simp [hu, hr, hf])]
  simp [midStore, emptyStore, lookupA, putChunkCore, updA, setA]

theorem uploadChunk_empty_step (uid rid ft : String) (hu : uid ≠ "") (hr : rid ≠ "")
    (hf : ft ≠ "") (tc : Option Nat) (c : Nat → List Nat) (i : Nat) :
    (uploadChunk emptyStore ⟨uid, rid, ft, some i, tc, some (c i)⟩).2 =
      midStore uid ft tc (setA [] (ft, i) (c i)) (i + 1) := by
  unfold uploadChunk
  dsimp only
  rw [if_neg (by simp [hu, hr, hf])]
  simp [midStore, emptyStore, lookupA, putChunkCore, updA, setA]

theorem runChunks_from_mid (uid rid ft : String) (hu : uid ≠ "") (hr : rid ≠ "")
    (hf : ft ≠ "") (tc : Option Nat) (c : Nat → List Nat) :
    ∀ (order : List Nat) (cf : List ((String × Nat) × List Nat)) (L : Nat),
      runChunks (midStore uid ft tc cf L) uid rid ft tc c order =
        midStore uid ft tc (writeAll ft c cf order)
          ((order.getLast?.map (fun j => j + 1)).getD L) := by
  intro order
  induction order with
  | nil => intro cf L; rfl
  | cons i rest ih =>
    intro cf L
    have hstep : runChunks (midStore uid ft tc cf L) uid rid ft tc c (i :: rest) =
        runChunks (midStore uid ft tc (setA cf (ft, i) (c i)) (i + 1)) uid rid ft tc c rest := by
      rw [runChunks, List.foldl_cons, uploadChunk_mid_step uid rid ft hu hr hf tc c i cf L]
      rfl
    rw [hstep, ih]
    have hw : writeAll ft c (setA cf (ft, i) (c i)) rest = writeAll ft c cf (i :: rest) := rfl
    rw [hw, getLast?_cons_getD]
    cases h : rest.getLast? with
    | none => simp
    | some x => simp

theorem lookupA_writeAll (ft : String) (c : Nat → List Nat) :
    ∀ (order : List Nat) (cf : List ((String × Nat) × List Nat)) (i : Nat),
      lookupA (writeAll ft c cf order) (ft, i) =
        if i ∈ order then some (c i) else lookupA cf (ft, i) := by
  intro order
  induction order with
  | nil => intro cf i; simp [writeAll]
  | cons j rest ih =>
    intro cf i
    have hw : writeAll ft c cf (j :: rest) = writeAll ft c (setA cf (ft, j) (c j)) rest := rfl
    rw [hw, ih]
    by_cases hij : i ∈ rest
    · simp [hij, List.mem_cons]
    · simp only [hij, if_false]
      by_cases hj : i = j
      · subst hj
        simp [lookupA_setA_self, List.mem_cons]
      · rw [lookupA_setA_of_ne cf (ft, j) (ft, i) (c j) (by simp [hj])]
        simp [List.mem_cons, hij, hj]

theorem assembleChunks_complete (cfl : List ((String × Nat) × List Nat)) (ft : String)
    (c : Nat → List Nat) :
    ∀ n, (∀ i, i < n → lookupA cfl (ft, i) = some (c i)) →
      assembleChunks cfl ft n = some (((List.range n).map c).flatten) := by
  intro n
  induction n with
  | zero => intro _; rfl
  | succ n ih =>
    intro h
    rw [assembleChunks, ih (fun i hi => h i (Nat.lt_succ_of_lt hi)), h n (Nat.lt_succ_self n)]
    rw [List.range_succ, List.map_append, List.flatten_append]
    simp

theorem finalize_mid_complete (uid rid ft : String) (hu : uid ≠ "") (hr : rid ≠ "")
    (N : Nat) (c : Nat → List Nat) (cfl : List ((String × Nat) × List Nat))
    (hcov : ∀ i, i < N → lookupA cfl (ft, i) = some (c i))
    (meta : UploadMetadata) (userId freshIv : String) :
    finalizeUpload (midStore uid ft (some N) cfl N) ⟨uid, rid, some meta⟩ userId freshIv =
      (.ok 0 rid [(ft, cloudUrl rid ft)] [(ft, ((List.range N).map c).flatten)],
       { emptyStore with
           sessions := [],
           evidence := [{ id := 0, userId := userId, recordingId := some rid,
                          sosId := none, evType := none, duration := some meta.duration,
                          encryptionIv := some (meta.encryptionIv.getD freshIv),
                          frontVideoUrl := lookupA [(ft, cloudUrl rid ft)] "frontVideo",
                          backVideoUrl := lookupA [(ft, cloudUrl rid ft)] "backVideo",
                          audioUrl := lookupA [(ft, cloudUrl rid ft)] "audioRecording",
                          uploadStatus := some "completed", evidenceFiles := [],
                          sharedWith := [], hash := none }],
           sosEvents := [⟨1, userId, some rid, "sos", meta.status.getD "confirmed", some 0⟩],
           nextId := 2 }) := by
  have hsess : lookupA (midStore uid ft (some N) cfl N).sessions uid =
      some ⟨[(ft, ⟨N, some N⟩)], cfl⟩ := by
    simp [midStore, lookupA]
  have hasm : assembledStreams ⟨[(ft, ⟨N, some N⟩)], cfl⟩ =
      [(ft, ((List.range N).map c).flatten)] := by
    simp [assembledStreams, assembleChunks_complete cfl ft c N hcov]
  unfold finalizeUpload
  dsimp only
  rw [if_neg (by simp [hu, hr])]
  rw [hsess]
  dsimp only
  rw [show List.find? (fun e => !streamComplete e.2) [(ft, (⟨N, some N⟩ : StreamProgress))]
      = none by simp [List.find?, streamComplete]]
  rw [finalizeCore]
  dsimp only
  rw [finalizeUrls, hasm]
  simp only [finalizeDoc, finalizeUrls, hasm, upsertSosEvent, midStore, emptyStore]
  simp [delA, List.find?]

/-- C2 (amended).  The claim holds only for interleavings whose last received
chunk is index `N-1`: for any order of receipt that covers indexes `0..N-1`
exactly once and ends with chunk `N-1`, finalize succeeds and returns exactly
the in-order result — the same response, the same assembled bytes
(concatenation of the chunks in index order), and the same final store.
Interleavings ending on any other index are rejected as incomplete (see the
counterexample), because completeness is judged by `lastChunkIndex + 1 ==
totalChunks`, not by which indexes arrived. -/
theorem finalize_order_independent_amended (uid rid ft : String) (hu : uid ≠ "")
    (hr : rid ≠ "") (hf : ft ≠ "") (N : Nat) (c : Nat → List Nat) (order : List Nat)
    (hperm : List.Perm order (List.range N)) (hlast : order.getLast? = some (N - 1))
    (meta : UploadMetadata) (userId freshIv : String) :
    finalizeUpload (runChunks emptyStore uid rid ft (some N) c order)
        ⟨uid, rid, some meta⟩ userId freshIv =
      finalizeUpload (runChunks emptyStore uid rid ft (some N) c (List.range N))
        ⟨uid, rid, some meta⟩ userId freshIv ∧
    (finalizeUpload (runChunks emptyStore uid rid ft (some N) c order)
        ⟨uid, rid, some meta⟩ userId freshIv).1 =
      .ok 0 rid [(ft, cloudUrl rid ft)] [(ft, ((List.range N).map c).flatten)] := by
  have hN : 0 < N := by
    cases order with
    | nil => simp at hlast
    | cons i rest =>
      by_contra hN0
      have : N = 0 := Nat.eq_zero_of_not_pos hN0
      subst this
      have : (i : Nat) ∈ List.range 0 := hperm.mem_iff.mp (by simp)
      simp at this
  have hrun : ∀ (ord : List Nat), List.Perm ord (List.range N) →
      ord.getLast? = some (N - 1) →
      runChunks emptyStore uid rid ft (some N) c ord =
        midStore uid ft (some N) (writeAll ft c [] ord) N := by
    intro ord hp hl
    cases ord with
    | nil => simp at hl
    | cons i rest =>
      have hstep : runChunks emptyStore uid rid ft (some N) c (i :: rest) =
          runChunks (midStore uid ft (some N) (setA [] (ft, i) (c i)) (i + 1))
            uid rid ft (some N) c rest := by
        rw [runChunks, List.foldl_cons,
          uploadChunk_empty_step uid rid ft hu hr hf (some N) c i]
        rfl
      rw [hstep, runChunks_from_mid uid rid ft hu hr hf (some N) c rest]
      have hw : writeAll ft c (setA [] (ft, i) (c i)) rest =
          writeAll ft c [] (i :: rest) := rfl
      rw [hw]
      rw [getLast?_cons_getD] at hl
      have hval : rest.getLast?.getD i = N - 1 := Option.some.inj hl
      have hNsub : N - 1 + 1 = N := by omega
      cases h : rest.getLast? with
      | none =>
        rw [h] at hval
        simp only [Option.getD_none] at hval
        subst hval
        simp [hNsub]
      | some x =>
        rw [h] at hval
        simp only [Option.getD_some] at hval
        subst hval
        simp [hNsub]
  have hcov : ∀ (ord : List Nat), List.Perm ord (List.range N) →
      ∀ i, i < N → lookupA (writeAll ft c [] ord) (ft, i) = some (c i) := by
    intro ord hp i hi
    rw [lookupA_writeAll ft c ord [] i]
    rw [if_pos (hp.mem_iff.mpr (List.mem_range.mpr hi))]
  have hrange_last : (List.range N).getLast? = some (N - 1) := by
    cases N with
    | zero => exact absurd hN (by simp)
    | succ n =>
      rw [List.range_succ, List.getLast?_concat]
      rfl
  have h1 := hrun order hperm hlast
  have h2 := hrun (List.range N) (List.Perm.refl _) hrange_last
  have hfin1 := finalize_mid_complete uid rid ft hu hr N c
    (writeAll ft c [] order) (hcov order hperm) meta userId freshIv
  have hfin2 := finalize_mid_complete uid rid ft hu hr N c
    (writeAll ft c [] (List.range N)) (hcov (List.range N) (List.Perm.refl _))
    meta userId freshIv
  constructor
  · rw [h1, h2, hfin1, hfin2]
  · rw [h1, hfin1]

/-- Witness for `finalize_order_independent_amended`: the order 1, 0, 2 of a
3-chunk stream covers 0..2 exactly once and ends with chunk 2; it finalizes
identically to the in-order receipt 0, 1, 2, assembling the bytes in index
order. -/
theorem finalize_order_independent_amended_witness :
    ("u1" : String) ≠ "" ∧ ("r1" : String) ≠ "" ∧ ("audioRecording" : String) ≠ "" ∧
    List.Perm [1, 0, 2] (List.range 3) ∧ ([1, 0, 2] : List Nat).getLast? = some (3 - 1) ∧
    finalizeUpload (runChunks emptyStore "u1" "r1" "audioRecording" (some 3)
        (fun i => [100 + i]) [1, 0, 2]) ⟨"u1", "r1", some ⟨5, 9, some "iv", none⟩⟩
        "alice" "fiv" =
      finalizeUpload (runChunks emptyStore "u1" "r1" "audioRecording" (some 3)
        (fun i => [100 + i]) (List.range 3)) ⟨"u1", "r1", some ⟨5, 9, some "iv", none⟩⟩
        "alice" "fiv" :=
  ⟨by decide, by decide, by decide, by decide, rfl,
   (finalize_order_independent_amended "u1" "r1" "audioRecording" (by decide) (by decide)
     (by decide) 3 (fun i => [100 + i]) [1, 0, 2] (by decide) rfl
     ⟨5, 9, some "iv", none⟩ "alice" "fiv").1⟩

/-! ### Claim C4: the combined tamper-protection hash -/

theorem enum_map_snd_comp {α β : Type} (l : List α) (h : α → β) :
    l.enum.map (fun e => h e.2) = l.map h := by
  have : (fun (e : Nat × α) => h e.2) = h ∘ Prod.snd := rfl
  rw [this, ← List.map_map, List.enum_map_snd]

/-- C4 (amended).  The record `POST /upload` stores carries
`hash = sha256hex(fileHashes.join(''))` where `fileHashes` are the SHA-256
hex digests of the uploaded files' bytes in the order the files appear in the
request — per file and in upload order, not per stream in a canonical
stream-type order (see the counterexample). -/
theorem upload_hash_per_file_in_upload_order (st : Store) (req : UploadRequest)
    (tokens : Nat → String) (hne : req.files ≠ []) :
    ∃ doc, (uploadEvidence st req tokens).2.evidence = st.evidence ++ [doc] ∧
      doc.hash = some (sha256HexOfString (String.join
        (req.files.map (fun f => sha256Hex f.bytes)))) ∧
      doc.evidenceFiles.map (fun f => f.data) = req.files.map (fun f => f.bytes) := by
  unfold uploadEvidence
  rw [if_neg hne]
  refine ⟨_, rfl, ?_, ?_⟩
  · dsimp only
    rw [List.map_map]
    have h1 : ((fun (e : String × EvFile) => e.1) ∘
        (fun (e : Nat × UploadFile) => (sha256Hex e.2.bytes,
          EvFile.mk (getEvidenceType e.2.mimetype) e.2.originalname e.2.bytes
            ("/api/evidence/file/" ++ tokens e.1) e.2.mimetype e.2.size)))
        = fun (e : Nat × UploadFile) => sha256Hex e.2.bytes := rfl
    rw [h1, enum_map_snd_comp req.files (fun f => sha256Hex f.bytes)]
  · dsimp only
    rw [List.map_map, List.map_map]
    have h2 : (((fun (f : EvFile) => f.data) ∘ (fun (e : String × EvFile) => e.2)) ∘
        (fun (e : Nat × UploadFile) => (sha256Hex e.2.bytes,
          EvFile.mk (getEvidenceType e.2.mimetype) e.2.originalname e.2.bytes
            ("/api/evidence/file/" ++ tokens e.1) e.2.mimetype e.2.size)))
        = fun (e : Nat × UploadFile) => e.2.bytes := rfl
    rw [h2, enum_map_snd_comp req.files (fun f => f.bytes)]

/-- Witness for `upload_hash_per_file_in_upload_order`: uploading the video
and audio demo files stores their per-file digests' concatenation hash. -/
theorem upload_hash_per_file_in_upload_order_witness :
    ([fileA, fileB] : List UploadFile) ≠ [] ∧
    ∃ doc, (uploadEvidence emptyStore ⟨"alice", "sos1", "panic", [fileA, fileB]⟩
        (fun i => toString i)).2.evidence = emptyStore.evidence ++ [doc] ∧
      doc.hash = some (sha256HexOfString (String.join
        ([fileA, fileB].map (fun f => sha256Hex f.bytes)))) ∧
      doc.evidenceFiles.map (fun f => f.data) = [fileA, fileB].map (fun f => f.bytes) :=
  ⟨by decide,
   upload_hash_per_file_in_upload_order emptyStore ⟨"alice", "sos1", "panic", [fileA, fileB]⟩
     (fun i => toString i) (by decide)⟩

set_option maxRecDepth 1000000 in
/-- C4 as stated is false: the two demo uploads store the same two streams
(the same multiset of per-stream content hashes) yet different combined
hashes — so the stored hash cannot equal a hash of the per-stream content
hashes in any canonical stream-type order; concretely, the audio-first record
disagrees with the canonical (schema-enum order) combination of its own
stream hashes.  The stored value depends on upload order. -/
theorem combined_hash_counterexample :
    List.Perm (streamHashPairs storeAB) (streamHashPairs storeBA) ∧
    storeAB.evidence.map (fun d => d.hash) ≠ storeBA.evidence.map (fun d => d.hash) ∧
    storeBA.evidence.map (fun d => some (specCombinedHash d)) ≠
      storeBA.evidence.map (fun d => d.hash) := by decide

end SmartSentry
